import Mathlib

/-!
Shallow embedding of the value-synthesis core (`fnvalue.rs`) and the shard
utility (`shard.rs`) of the repository, together with theorems checking the
specification's claims against it.

The `syn` type tree is embedded as a mutual inductive family; `quote!`
token-stream templates are embedded as constructors of `Tok`, one constructor
per distinct template, so that two source templates producing the same token
stream share a constructor.  Error expressions (`syn::Expr`) are opaque to the
synthesizer and are embedded as strings.
-/

namespace Mutants

mutual

/-- Embedding of `syn::Type` restricted to the constructors `fnvalue.rs`
distinguishes: `Path`, `Array`, `Slice`, `Reference` (with mutability),
`Tuple`, `ImplTrait`, `Never`, and a catch-all `other` for every remaining
`syn::Type` variant (which the source sends to the final `_` arm). -/
inductive RType : Type where
  | path (p : RPath)
  | array (elem : RType) (len : Nat)
  | slice (elem : RType)
  | ref (mutable : Bool) (elem : RType)
  | tuple (elems : List RType)
  | implTrait (bounds : List Bound)
  | never
  | other

/-- Embedding of `syn::Path`: a leading-colon flag and a list of segments. -/
inductive RPath : Type where
  | mk (leadingColon : Bool) (segments : List PathSeg)

/-- Embedding of `syn::PathSegment`: an identifier and its arguments. -/
inductive PathSeg : Type where
  | mk (ident : String) (arguments : PathArgs)

/-- Embedding of `syn::PathArguments`. -/
inductive PathArgs : Type where
  | none
  | angleBracketed (args : List GenArg)
  | parenthesized

/-- Embedding of `syn::GenericArgument` restricted to what the source
inspects: lifetimes, types, associated-type bindings, and a catch-all. -/
inductive GenArg : Type where
  | lifetime
  | type (t : RType)
  | assocType (ident : String) (t : RType)
  | other

/-- Embedding of `syn::TypeParamBound`: a trait bound carrying a path, or
anything else (lifetime bounds etc.). -/
inductive Bound : Type where
  | trait (path : RPath)
  | other

end

def RPath.leadingColon : RPath → Bool
  | .mk lc _ => lc

def RPath.segments : RPath → List PathSeg
  | .mk _ segs => segs

def PathSeg.ident : PathSeg → String
  | .mk i _ => i

def PathSeg.arguments : PathSeg → PathArgs
  | .mk _ a => a

/-- Embedding of `syn::Path::get_ident`: the path is a single segment with no
leading colon and no arguments. -/
def RPath.getIdent : RPath → Option String
  | .mk false [.mk i .none] => some i
  | _ => Option.none

/-- Embedding of `syn::Path::is_ident`. -/
def RPath.isIdent (p : RPath) (s : String) : Bool :=
  p.getIdent == some s

/-- `fn path_ends_with`: the last segment's identifier equals `ident`. -/
def path_ends_with (p : RPath) (ident : String) : Bool :=
  match p.segments.getLast? with
  | some s => s.ident == ident
  | Option.none => false

/-- The loop body of `match_first_type_arg`: scan the generic arguments,
returning the first type, skipping lifetimes, and giving up on anything
else. -/
def first_type_arg : List GenArg → Option RType
  | .type t :: _ => some t
  | .lifetime :: rest => first_type_arg rest
  | _ => Option.none

/-- `fn match_first_type_arg`: if the path's last segment is
`expected_ident` with angle-bracketed arguments, return its first type
argument (ignoring lifetimes). -/
def match_first_type_arg (p : RPath) (expected_ident : String) : Option RType :=
  match p.segments.getLast? with
  | some (.mk ident (.angleBracketed args)) =>
    if ident == expected_ident then first_type_arg args else Option.none
  | _ => Option.none

/-- `args.len() == 1 && args.first() is a type argument`, shared shape of
`known_container` and `known_collection`. -/
def one_type_arg : List GenArg → Option RType
  | [.type t] => some t
  | _ => Option.none

/-- `fn known_container`: `Box`, `Cell`, `RefCell`, `Arc`, `Rc`, `Mutex` with
exactly one angle-bracketed argument that is a type. -/
def known_container (p : RPath) : Option (String × RType) :=
  match p.segments.getLast? with
  | some (.mk ident (.angleBracketed args)) =>
    if ["Box", "Cell", "RefCell", "Arc", "Rc", "Mutex"].any (fun v => ident == v) then
      (one_type_arg args).map (fun t => (ident, t))
    else Option.none
  | _ => Option.none

/-- `fn known_collection`: `BinaryHeap`, `BTreeSet`, `HashSet`, `LinkedList`,
`VecDeque` with exactly one angle-bracketed argument that is a type. -/
def known_collection (p : RPath) : Option (String × RType) :=
  match p.segments.getLast? with
  | some (.mk ident (.angleBracketed args)) =>
    if ["BinaryHeap", "BTreeSet", "HashSet", "LinkedList", "VecDeque"].any
        (fun v => ident == v) then
      (one_type_arg args).map (fun t => (ident, t))
    else Option.none
  | _ => Option.none

/-- `args.iter().collect_tuple()` of exactly two type arguments, the shape
required by `known_map`. -/
def two_type_args : List GenArg → Option (RType × RType)
  | [.type k, .type v] => some (k, v)
  | _ => Option.none

/-- `fn known_map`: `BTreeMap` or `HashMap` with exactly two angle-bracketed
arguments, both types. -/
def known_map (p : RPath) : Option (String × RType × RType) :=
  match p.segments.getLast? with
  | some (.mk ident (.angleBracketed args)) =>
    if ["BTreeMap", "HashMap"].any (fun v => ident == v) then
      (two_type_args args).map (fun kv => (ident, kv))
    else Option.none
  | _ => Option.none

/-- `args.iter().filter_map(GenericArgument::Type)`: just the type
arguments. -/
def type_args_only : List GenArg → List RType
  | [] => []
  | .type t :: rest => t :: type_args_only rest
  | _ :: rest => type_args_only rest

/-- `fn maybe_collection_or_container`: any last segment with angle-bracketed
arguments of which exactly one is a type. -/
def maybe_collection_or_container (p : RPath) : Option (String × RType) :=
  match p.segments.getLast? with
  | some (.mk ident (.angleBracketed args)) =>
    match type_args_only args with
    | [t] => some (ident, t)
    | _ => Option.none
  | _ => Option.none

/-- `fn path_is_float`. -/
def path_is_float (p : RPath) : Bool :=
  ["f32", "f64"].any (fun s => p.isIdent s)

/-- `fn path_is_unsigned`. -/
def path_is_unsigned (p : RPath) : Bool :=
  ["u8", "u16", "u32", "u64", "u128", "usize"].any (fun s => p.isIdent s)

/-- `fn path_is_signed`. -/
def path_is_signed (p : RPath) : Bool :=
  ["i8", "i16", "i32", "i64", "i128", "isize"].any (fun s => p.isIdent s)

/-- `fn path_is_nonzero_signed`: matches on the last segment's identifier
string alone. -/
def path_is_nonzero_signed (p : RPath) : Bool :=
  match p.segments.getLast? with
  | some s =>
    ["NonZeroIsize", "NonZeroI8", "NonZeroI16", "NonZeroI32", "NonZeroI64",
      "NonZeroI128"].any (fun v => s.ident == v)
  | Option.none => false

/-- `fn path_is_nonzero_unsigned`: matches on the last segment's identifier
string alone. -/
def path_is_nonzero_unsigned (p : RPath) : Bool :=
  match p.segments.getLast? with
  | some s =>
    ["NonZeroUsize", "NonZeroU8", "NonZeroU16", "NonZeroU32", "NonZeroU64",
      "NonZeroU128"].any (fun v => s.ident == v)
  | Option.none => false

/-- The per-bound test inside the loop of `match_impl_iterator`: a trait
bound whose path's last segment is `Iterator` with angle-bracketed arguments
whose first argument is the associated type `Item = t` yields `t`. -/
def impl_iterator_item : Bound → Option RType
  | .trait p =>
    match p.segments.getLast? with
    | some (.mk ident (.angleBracketed args)) =>
      if ident == "Iterator" then
        match args with
        | .assocType aid t :: _ => if aid == "Item" then some t else Option.none
        | _ => Option.none
      else Option.none
    | _ => Option.none
  | .other => Option.none

/-- `fn match_impl_iterator`: scan the bounds, returning the item type of the
first bound that passes `impl_iterator_item`; every non-matching bound is
skipped, and exhausting the list yields `None`. -/
def match_impl_iterator : List Bound → Option RType
  | [] => Option.none
  | b :: rest =>
    match impl_iterator_item b with
    | some t => some t
    | Option.none => match_impl_iterator rest

/-- Embedding of the `quote!` token-stream templates of `fnvalue.rs`: one
constructor per distinct template.  Templates that occur in several source
branches with identical token output (for example `#name::new(#rep)` in both
`known_container` and `maybe_collection_or_container` branches) share one
constructor. -/
inductive Tok : Type where
  | unit
  | trueLit
  | falseLit
  | stringNew
  | xyzzyInto
  | strEmpty
  | strXyzzy
  | zero
  | one
  | negOne
  | floatZero
  | floatOne
  | floatNegOne
  | ok (rep : Tok)
  | err (e : String)
  | defaultDefault
  | httpResponseOkFinish
  | none
  | some (rep : Tok)
  | vecEmpty
  | vecOf (rep : Tok)
  | cowBorrowed (rep : Tok)
  | cowOwned (rep : Tok)
  | newCall (name : String) (rep : Tok)
  | newEmpty (name : String)
  | fromIterOne (name : String) (rep : Tok)
  | fromIterPair (name : String) (k v : Tok)
  | fromCall (name : String) (rep : Tok)
  | arrayRepeat (rep : Tok) (len : Nat)
  | leakEmptyVec
  | leakVecOf (rep : Tok)
  | refOf (rep : Tok)
  | boxLeak (rep : Tok)
  | tuple (reps : List Tok)
  | iterEmpty
  | iterOnce (rep : Tok)

/-- itertools `cartesian_product`: the left list varies slower. -/
def cartesian_product (l1 : List α) (l2 : List β) : List (α × β) :=
  l1.flatMap (fun a => l2.map (fun b => (a, b)))

/-- itertools `multi_cartesian_product`: the first list varies slowest; an
empty outer list yields no products. -/
def multi_cartesian_product : List (List α) → List (List α)
  | [] => []
  | l :: ls =>
    match ls with
    | [] => l.map (fun x => [x])
    | _ :: _ => l.flatMap (fun x => (multi_cartesian_product ls).map (fun xs => x :: xs))

theorem sizeOf_args_lt_of_getLast {p : RPath} {ident : String} {args : List GenArg}
    (h : p.segments.getLast? = some (.mk ident (.angleBracketed args))) :
    sizeOf args < sizeOf p := by
  obtain ⟨lc, segs⟩ := p
  have hm : PathSeg.mk ident (.angleBracketed args) ∈ segs :=
    List.mem_of_mem_getLast? h
  have h2 := List.sizeOf_lt_of_mem hm
  simp at h2 ⊢
  omega

theorem sizeOf_lt_of_first_type_arg {args : List GenArg} {t : RType}
    (h : first_type_arg args = some t) : sizeOf t < sizeOf args := by
  induction args with
  | nil => simp [first_type_arg] at h
  | cons a rest ih =>
    cases a with
    | type t2 =>
      simp [first_type_arg] at h
      subst h
      simp
      omega
    | lifetime =>
      simp [first_type_arg] at h
      have hih := ih h
      simp
      omega
    | assocType i t2 => simp [first_type_arg] at h
    | other => simp [first_type_arg] at h

theorem sizeOf_lt_of_match_first_type_arg {p : RPath} {s : String} {t : RType}
    (h : match_first_type_arg p s = some t) : sizeOf t < sizeOf p := by
  unfold match_first_type_arg at h
  split at h
  case _ ident args heq =>
    split at h
    · have h1 := sizeOf_lt_of_first_type_arg h
      have h2 := sizeOf_args_lt_of_getLast heq
      omega
    · simp at h
  case _ => simp at h

theorem sizeOf_lt_of_one_type_arg {args : List GenArg} {t : RType}
    (h : one_type_arg args = some t) : sizeOf t < sizeOf args := by
  unfold one_type_arg at h
  split at h
  · simp at h
    subst h
    simp
    omega
  · simp at h

theorem sizeOf_lt_of_known_container {p : RPath} {n : String} {t : RType}
    (h : known_container p = some (n, t)) : sizeOf t < sizeOf p := by
  unfold known_container at h
  split at h
  case _ ident args heq =>
    split at h
    · cases ho : one_type_arg args with
      | none => rw [ho] at h; simp at h
      | some t2 =>
        rw [ho, Option.map_some'] at h
        have h' := Option.some.inj h
        have ht : t2 = t := congrArg Prod.snd h'
        subst ht
        have h1 := sizeOf_lt_of_one_type_arg ho
        have h2 := sizeOf_args_lt_of_getLast heq
        omega
    · simp at h
  case _ => simp at h

theorem sizeOf_lt_of_known_collection {p : RPath} {n : String} {t : RType}
    (h : known_collection p = some (n, t)) : sizeOf t < sizeOf p := by
  unfold known_collection at h
  split at h
  case _ ident args heq =>
    split at h
    · cases ho : one_type_arg args with
      | none => rw [ho] at h; simp at h
      | some t2 =>
        rw [ho, Option.map_some'] at h
        have h' := Option.some.inj h
        have ht : t2 = t := congrArg Prod.snd h'
        subst ht
        have h1 := sizeOf_lt_of_one_type_arg ho
        have h2 := sizeOf_args_lt_of_getLast heq
        omega
    · simp at h
  case _ => simp at h

theorem sizeOf_lt_of_two_type_args {args : List GenArg} {k v : RType}
    (h : two_type_args args = some (k, v)) :
    sizeOf k < sizeOf args ∧ sizeOf v < sizeOf args := by
  unfold two_type_args at h
  split at h
  · simp at h
    obtain ⟨hk, hv⟩ := h
    subst hk
    subst hv
    constructor <;> (simp; omega)
  · simp at h

theorem sizeOf_lt_of_known_map {p : RPath} {n : String} {k v : RType}
    (h : known_map p = some (n, k, v)) :
    sizeOf k < sizeOf p ∧ sizeOf v < sizeOf p := by
  unfold known_map at h
  split at h
  case _ ident args heq =>
    split at h
    · cases ho : two_type_args args with
      | none => rw [ho] at h; simp at h
      | some kv =>
        rw [ho, Option.map_some'] at h
        have h' := Option.some.inj h
        have hkv : kv = (k, v) := congrArg Prod.snd h'
        subst hkv
        have h1 := sizeOf_lt_of_two_type_args ho
        have h2 := sizeOf_args_lt_of_getLast heq
        obtain ⟨hk1, hv1⟩ := h1
        constructor <;> omega
    · simp at h
  case _ => simp at h

theorem sizeOf_lt_of_type_args_only {args : List GenArg} {t : RType}
    (h : t ∈ type_args_only args) : sizeOf t < sizeOf args := by
  induction args with
  | nil => simp [type_args_only] at h
  | cons a rest ih =>
    cases a with
    | type t2 =>
      simp only [type_args_only, List.mem_cons] at h
      cases h with
      | inl h => subst h; simp; omega
      | inr h => have hih := ih h; simp; omega
    | lifetime => simp only [type_args_only] at h; have hih := ih h; simp; omega
    | assocType i t2 => simp only [type_args_only] at h; have hih := ih h; simp; omega
    | other => simp only [type_args_only] at h; have hih := ih h; simp; omega

theorem sizeOf_lt_of_maybe_collection_or_container {p : RPath} {n : String} {t : RType}
    (h : maybe_collection_or_container p = some (n, t)) : sizeOf t < sizeOf p := by
  unfold maybe_collection_or_container at h
  split at h
  case _ ident args heq =>
    split at h
    case _ t2 hargs =>
      have h' := Option.some.inj h
      have ht : t2 = t := congrArg Prod.snd h'
      subst ht
      have h1 : t2 ∈ type_args_only args := by rw [hargs]; simp
      have h2 := sizeOf_lt_of_type_args_only h1
      have h3 := sizeOf_args_lt_of_getLast heq
      omega
    case _ => simp at h
  case _ => simp at h

theorem sizeOf_lt_of_impl_iterator_item {b : Bound} {t : RType}
    (h : impl_iterator_item b = some t) : sizeOf t < sizeOf b := by
  cases b with
  | other => simp [impl_iterator_item] at h
  | trait p =>
    cases heq : p.segments.getLast? with
    | none => simp [impl_iterator_item, heq] at h
    | some seg =>
      obtain ⟨ident, sargs⟩ := seg
      cases sargs with
      | none => simp [impl_iterator_item, heq] at h
      | parenthesized => simp [impl_iterator_item, heq] at h
      | angleBracketed args =>
        cases args with
        | nil => simp [impl_iterator_item, heq] at h
        | cons a tail =>
          cases a with
          | lifetime => simp [impl_iterator_item, heq] at h
          | type t2 => simp [impl_iterator_item, heq] at h
          | other => simp [impl_iterator_item, heq] at h
          | assocType aid t2 =>
            simp only [impl_iterator_item, heq] at h
            split at h
            · split at h
              · have ht : t2 = t := by simpa using h
                subst ht
                have h2 := sizeOf_args_lt_of_getLast heq
                simp at h2 ⊢
                omega
              · simp at h
            · simp at h

theorem sizeOf_lt_of_match_impl_iterator {bounds : List Bound} {t : RType}
    (h : match_impl_iterator bounds = some t) : sizeOf t < sizeOf bounds := by
  induction bounds with
  | nil => simp [match_impl_iterator] at h
  | cons b rest ih =>
    rw [match_impl_iterator] at h
    cases hb : impl_iterator_item b with
    | some t2 =>
      rw [hb] at h
      simp at h
      subst h
      have hih := sizeOf_lt_of_impl_iterator_item hb
      simp
      omega
    | none =>
      rw [hb] at h
      simp at h
      have hih := ih h
      simp
      omega

mutual

/-- Embedding of `fn type_replacements`: the branch structure, branch order,
and emitted templates follow `fnvalue.rs` line by line.  The `Type::Path` arm
is split out as `path_replacements` (its `if`/`else if` chain) which in turn
tails into `registry_replacements` (the chain of `else if let Some(...)`
registry lookups); the three functions together are the one source
function. -/
def type_replacements (type_ : RType) (error_exprs : List String) : List Tok :=
  match type_ with
  | .path p => path_replacements p error_exprs
  | .array elem len =>
    (type_replacements elem error_exprs).map (fun r => .arrayRepeat r len)
  | .slice elem =>
    .leakEmptyVec :: (type_replacements elem error_exprs).map (fun r => .leakVecOf r)
  | .ref false elem =>
    match elem with
    | .path p =>
      if p.isIdent "str" then
        [.strEmpty, .strXyzzy]
      else
        (type_replacements (.path p) error_exprs).map (fun rep => .refOf rep)
    | .slice selem =>
      .leakEmptyVec :: (type_replacements selem error_exprs).map (fun r => .leakVecOf r)
    | e => (type_replacements e error_exprs).map (fun rep => .refOf rep)
  | .ref true elem =>
    match elem with
    | .slice selem =>
      .leakEmptyVec :: (type_replacements selem error_exprs).map (fun r => .leakVecOf r)
    | e => (type_replacements e error_exprs).map (fun rep => .boxLeak rep)
  | .tuple elems =>
    if elems.isEmpty then
      [.unit]
    else
      (multi_cartesian_product
          (elems.attach.map (fun e => type_replacements e.1 error_exprs))).map
        (fun reps => .tuple reps)
  | .implTrait bounds =>
    match h : match_impl_iterator bounds with
    | some item_type =>
      .iterEmpty :: (type_replacements item_type error_exprs).map (fun r => .iterOnce r)
    | Option.none => []
  | .never => []
  | .other => [.defaultDefault]
termination_by (sizeOf type_, 2)
decreasing_by
  all_goals
    first
      | (apply Prod.Lex.right; omega)
      | (apply Prod.Lex.left
         first
           | (have hlt := sizeOf_lt_of_match_impl_iterator h; simp <;> omega)
           | (have hlt := List.sizeOf_lt_of_mem e.2; simp at hlt ⊢ <;> omega)
           | (simp <;> omega))

/-- The `Type::Path` arm of `fn type_replacements`: the leading `if`/`else if`
chain of exact-name and terminal-segment tests, falling through to the
registry lookups. -/
def path_replacements (p : RPath) (error_exprs : List String) : List Tok :=
  if p.isIdent "bool" then
    [.trueLit, .falseLit]
  else if p.isIdent "String" then
    [.stringNew, .xyzzyInto]
  else if p.isIdent "str" then
    [.strEmpty, .strXyzzy]
  else if path_is_unsigned p then
    [.zero, .one]
  else if path_is_signed p then
    [.zero, .one, .negOne]
  else if path_is_nonzero_signed p then
    [.one, .negOne]
  else if path_is_nonzero_unsigned p then
    [.one]
  else if path_is_float p then
    [.floatZero, .floatOne, .floatNegOne]
  else if path_ends_with p "Result" then
    (match h : match_first_type_arg p "Result" with
      | some ok_type =>
        (type_replacements ok_type error_exprs).map (fun rep => .ok rep)
      | Option.none => [.ok .defaultDefault])
      ++ error_exprs.map (fun error_expr => .err error_expr)
  else if path_ends_with p "HttpResponse" then
    [.httpResponseOkFinish]
  else
    registry_replacements p error_exprs
termination_by (sizeOf (RType.path p), 1)
decreasing_by
  all_goals
    first
      | (apply Prod.Lex.right; omega)
      | (apply Prod.Lex.left
         have hlt := sizeOf_lt_of_match_first_type_arg h
         simp <;> omega)

/-- The tail of the `Type::Path` arm of `fn type_replacements`: the chain of
`else if let Some(...) = ...` lookups against `Option`, `Vec`, `Cow`, the
known containers, collections and maps, the single-type-argument heuristic,
and the final `Default::default()` fallback. -/
def registry_replacements (p : RPath) (error_exprs : List String) : List Tok :=
  match h : match_first_type_arg p "Option" with
  | some some_type =>
    .none :: (type_replacements some_type error_exprs).map (fun rep => .some rep)
  | Option.none =>
  match h : match_first_type_arg p "Vec" with
  | some element_type =>
    .vecEmpty :: (type_replacements element_type error_exprs).map (fun rep => .vecOf rep)
  | Option.none =>
  match h : match_first_type_arg p "Cow" with
  | some borrowed_type =>
    (type_replacements borrowed_type error_exprs).flatMap
      (fun rep => [.cowBorrowed rep, .cowOwned rep])
  | Option.none =>
  match h : known_container p with
  | some (container_type, inner_type) =>
    (type_replacements inner_type error_exprs).map
      (fun rep => .newCall container_type rep)
  | Option.none =>
  match h : known_collection p with
  | some (collection_type, inner_type) =>
    .newEmpty collection_type ::
      (type_replacements inner_type error_exprs).map
        (fun rep => .fromIterOne collection_type rep)
  | Option.none =>
  match h : known_map p with
  | some (collection_type, key_type, value_type) =>
    .newEmpty collection_type ::
      (cartesian_product (type_replacements key_type error_exprs)
          (type_replacements value_type error_exprs)).map
        (fun kv => .fromIterPair collection_type kv.1 kv.2)
  | Option.none =>
  match h : maybe_collection_or_container p with
  | some (collection_type, inner_type) =>
    .newEmpty collection_type ::
      (type_replacements inner_type error_exprs).flatMap
        (fun rep =>
          [.fromIterOne collection_type rep, .newCall collection_type rep,
            .fromCall collection_type rep])
  | Option.none => [.defaultDefault]
termination_by (sizeOf (RType.path p), 0)
decreasing_by
  all_goals
    apply Prod.Lex.left
    first
      | (have hlt := sizeOf_lt_of_match_first_type_arg h; simp <;> omega)
      | (have hlt := sizeOf_lt_of_known_container h; simp <;> omega)
      | (have hlt := sizeOf_lt_of_known_collection h; simp <;> omega)
      | (have hlt := (sizeOf_lt_of_known_map h).1; simp <;> omega)
      | (have hlt := (sizeOf_lt_of_known_map h).2; simp <;> omega)
      | (have hlt := sizeOf_lt_of_maybe_collection_or_container h; simp <;> omega)

end

/-- Embedding of `fn return_type_replacements`: `ReturnType::Default` (no
declared return type) is `Option.none` and yields the single unit candidate;
an explicit type delegates to `type_replacements`. -/
def return_type_replacements (return_type : Option RType) (error_exprs : List String) :
    List Tok :=
  match return_type with
  | Option.none => [.unit]
  | some type_ => type_replacements type_ error_exprs

/-! Lemmas evaluating the classifier predicates from facts about a path's
shape. -/

theorem isIdent_true {p : RPath} {c : String} (h : p.isIdent c = true) :
    p = .mk false [.mk c .none] := by
  unfold RPath.isIdent RPath.getIdent at h
  split at h
  · simp at h
    subst h
    rfl
  · simp at h

theorem isIdent_false_of_getLast_ne {p : RPath} {ident : String} {a : PathArgs}
    (h : p.segments.getLast? = some (.mk ident a)) (c : String)
    (hne : (ident == c) = false) :
    p.isIdent c = false := by
  cases hb : p.isIdent c with
  | false => rfl
  | true =>
    exfalso
    have hp := isIdent_true hb
    subst hp
    simp [RPath.segments] at h
    simp [h.1] at hne

theorem isIdent_false_of_long {p : RPath}
    (h : 2 ≤ p.segments.length ∨ p.leadingColon = true) (c : String) :
    p.isIdent c = false := by
  cases hb : p.isIdent c with
  | false => rfl
  | true =>
    exfalso
    have hp := isIdent_true hb
    subst hp
    simp [RPath.segments, RPath.leadingColon] at h

theorem path_ends_with_eq_of_getLast {p : RPath} {ident : String} {a : PathArgs}
    (h : p.segments.getLast? = some (.mk ident a)) (s : String) :
    path_ends_with p s = (ident == s) := by
  unfold path_ends_with
  rw [h]
  rfl

theorem path_is_nonzero_signed_eq_of_getLast {p : RPath} {ident : String} {a : PathArgs}
    (h : p.segments.getLast? = some (.mk ident a)) :
    path_is_nonzero_signed p =
      (["NonZeroIsize", "NonZeroI8", "NonZeroI16", "NonZeroI32", "NonZeroI64",
        "NonZeroI128"].any (fun v => ident == v)) := by
  unfold path_is_nonzero_signed
  rw [h]
  rfl

theorem path_is_nonzero_unsigned_eq_of_getLast {p : RPath} {ident : String} {a : PathArgs}
    (h : p.segments.getLast? = some (.mk ident a)) :
    path_is_nonzero_unsigned p =
      (["NonZeroUsize", "NonZeroU8", "NonZeroU16", "NonZeroU32", "NonZeroU64",
        "NonZeroU128"].any (fun v => ident == v)) := by
  unfold path_is_nonzero_unsigned
  rw [h]
  rfl

theorem match_first_type_arg_getLast {p : RPath} {s : String} {X : RType}
    (h : match_first_type_arg p s = some X) :
    ∃ args, p.segments.getLast? = some (.mk s (.angleBracketed args)) ∧
      first_type_arg args = some X := by
  unfold match_first_type_arg at h
  split at h
  case _ ident args heq =>
    split at h
    case _ hi =>
      refine ⟨args, ?_, h⟩
      rw [heq]
      congr 2
      exact eq_of_beq hi
    case _ => simp at h
  case _ => simp at h

theorem match_first_type_arg_ne {p : RPath} {s : String} {X : RType}
    (h : match_first_type_arg p s = some X) {s' : String} (hne : s ≠ s') :
    match_first_type_arg p s' = Option.none := by
  obtain ⟨args, hl, -⟩ := match_first_type_arg_getLast h
  unfold match_first_type_arg
  rw [hl]
  simp [hne]

/-- `Type::Path` dispatches to the `if` chain. -/
theorem type_replacements_path (p : RPath) (E : List String) :
    type_replacements (.path p) E = path_replacements p E := by
  simp only [type_replacements.eq_def]

/-! Branch lemmas: what the `if` chain produces under each classification. -/

theorem path_replacements_result_some {p : RPath} {X : RType} (E : List String)
    (h : match_first_type_arg p "Result" = some X) :
    path_replacements p E
      = (type_replacements X E).map (fun c => .ok c)
          ++ E.map (fun e => .err e) := by
  obtain ⟨args, hl, hf⟩ := match_first_type_arg_getLast h
  rw [path_replacements.eq_def]
  simp [isIdent_false_of_getLast_ne hl, path_is_unsigned, path_is_signed, path_is_float,
    path_is_nonzero_signed_eq_of_getLast hl, path_is_nonzero_unsigned_eq_of_getLast hl,
    path_ends_with_eq_of_getLast hl]
  split <;> simp_all

theorem path_replacements_result_none {p : RPath} {a : PathArgs} (E : List String)
    (hl : p.segments.getLast? = some (.mk "Result" a))
    (h : match_first_type_arg p "Result" = Option.none) :
    path_replacements p E = .ok .defaultDefault :: E.map (fun e => .err e) := by
  rw [path_replacements.eq_def]
  simp [isIdent_false_of_getLast_ne hl, path_is_unsigned, path_is_signed, path_is_float,
    path_is_nonzero_signed_eq_of_getLast hl, path_is_nonzero_unsigned_eq_of_getLast hl,
    path_ends_with_eq_of_getLast hl]
  split <;> simp_all

theorem path_replacements_option_some {p : RPath} {X : RType} (E : List String)
    (h : match_first_type_arg p "Option" = some X) :
    path_replacements p E
      = .none :: (type_replacements X E).map (fun c => .some c) := by
  obtain ⟨args, hl, hf⟩ := match_first_type_arg_getLast h
  rw [path_replacements.eq_def]
  simp [isIdent_false_of_getLast_ne hl, path_is_unsigned, path_is_signed, path_is_float,
    path_is_nonzero_signed_eq_of_getLast hl, path_is_nonzero_unsigned_eq_of_getLast hl,
    path_ends_with_eq_of_getLast hl]
  rw [registry_replacements.eq_def]
  split <;> simp_all

theorem path_replacements_nonzero_unsigned {p : RPath} (E : List String)
    (h : path_is_nonzero_unsigned p = true) :
    path_replacements p E = [.one] := by
  unfold path_is_nonzero_unsigned at h
  cases hl : p.segments.getLast? with
  | none => rw [hl] at h; simp at h
  | some seg =>
    rw [hl] at h
    obtain ⟨ident, a⟩ := seg
    simp [PathSeg.ident] at h
    rw [path_replacements.eq_def]
    rcases h with h|h|h|h|h|h <;>
      subst h <;>
      simp [isIdent_false_of_getLast_ne hl, path_is_unsigned, path_is_signed, path_is_float,
        path_is_nonzero_signed_eq_of_getLast hl, path_is_nonzero_unsigned_eq_of_getLast hl,
        path_ends_with_eq_of_getLast hl]

theorem path_replacements_nonzero_signed {p : RPath} (E : List String)
    (h : path_is_nonzero_signed p = true) :
    path_replacements p E = [.one, .negOne] := by
  unfold path_is_nonzero_signed at h
  cases hl : p.segments.getLast? with
  | none => rw [hl] at h; simp at h
  | some seg =>
    rw [hl] at h
    obtain ⟨ident, a⟩ := seg
    simp [PathSeg.ident] at h
    rw [path_replacements.eq_def]
    rcases h with h|h|h|h|h|h <;>
      subst h <;>
      simp [isIdent_false_of_getLast_ne hl, path_is_unsigned, path_is_signed, path_is_float,
        path_is_nonzero_signed_eq_of_getLast hl, path_is_nonzero_unsigned_eq_of_getLast hl,
        path_ends_with_eq_of_getLast hl]

theorem path_replacements_String {p : RPath} (E : List String)
    (h : p.isIdent "String" = true) :
    path_replacements p E = [.stringNew, .xyzzyInto] := by
  have hp := isIdent_true h
  subst hp
  simp [path_replacements, RPath.isIdent, RPath.getIdent, path_is_unsigned, path_is_signed,
    path_is_float, path_is_nonzero_signed, path_is_nonzero_unsigned, path_ends_with,
    RPath.segments, PathSeg.ident]

theorem path_replacements_str {p : RPath} (E : List String)
    (h : p.isIdent "str" = true) :
    path_replacements p E = [.strEmpty, .strXyzzy] := by
  have hp := isIdent_true h
  subst hp
  simp [path_replacements, RPath.isIdent, RPath.getIdent, path_is_unsigned, path_is_signed,
    path_is_float, path_is_nonzero_signed, path_is_nonzero_unsigned, path_ends_with,
    RPath.segments, PathSeg.ident]

theorem path_replacements_unsigned {p : RPath} (E : List String)
    (h : path_is_unsigned p = true) :
    path_replacements p E = [.zero, .one] := by
  unfold path_is_unsigned at h
  simp at h
  rcases h with h|h|h|h|h|h <;>
    (have hp := isIdent_true h; subst hp;
     simp [path_replacements, RPath.isIdent, RPath.getIdent, path_is_unsigned, path_is_signed,
       path_is_float, path_is_nonzero_signed, path_is_nonzero_unsigned, path_ends_with,
       RPath.segments, PathSeg.ident])

theorem type_replacements_ref_str {p : RPath} (E : List String)
    (h : p.isIdent "str" = true) :
    type_replacements (.ref false (.path p)) E = [.strEmpty, .strXyzzy] := by
  rw [type_replacements.eq_def]
  simp [h]

theorem match_first_type_arg_none_of_args_none {p : RPath} {ident : String}
    (hl : p.segments.getLast? = some (.mk ident .none)) (s : String) :
    match_first_type_arg p s = Option.none := by
  unfold match_first_type_arg
  rw [hl]

theorem known_container_none_of_args_none {p : RPath} {ident : String}
    (hl : p.segments.getLast? = some (.mk ident .none)) :
    known_container p = Option.none := by
  unfold known_container
  rw [hl]

theorem known_collection_none_of_args_none {p : RPath} {ident : String}
    (hl : p.segments.getLast? = some (.mk ident .none)) :
    known_collection p = Option.none := by
  unfold known_collection
  rw [hl]

theorem known_map_none_of_args_none {p : RPath} {ident : String}
    (hl : p.segments.getLast? = some (.mk ident .none)) :
    known_map p = Option.none := by
  unfold known_map
  rw [hl]

theorem maybe_none_of_args_none {p : RPath} {ident : String}
    (hl : p.segments.getLast? = some (.mk ident .none)) :
    maybe_collection_or_container p = Option.none := by
  unfold maybe_collection_or_container
  rw [hl]

theorem registry_replacements_default {p : RPath} (E : List String)
    (h1 : match_first_type_arg p "Option" = Option.none)
    (h2 : match_first_type_arg p "Vec" = Option.none)
    (h3 : match_first_type_arg p "Cow" = Option.none)
    (h4 : known_container p = Option.none)
    (h5 : known_collection p = Option.none)
    (h6 : known_map p = Option.none)
    (h7 : maybe_collection_or_container p = Option.none) :
    registry_replacements p E = [.defaultDefault] := by
  rw [registry_replacements.eq_def]
  split
  · simp_all
  split
  · simp_all
  split
  · simp_all
  split
  · simp_all
  split
  · simp_all
  split
  · simp_all
  split
  · simp_all
  rfl

theorem type_replacements_array (elem : RType) (len : Nat) (E : List String) :
    type_replacements (.array elem len) E
      = (type_replacements elem E).map (fun c => .arrayRepeat c len) := by
  conv_lhs => rw [type_replacements.eq_def]

theorem type_replacements_never (E : List String) :
    type_replacements .never E = [] := by
  conv_lhs => rw [type_replacements.eq_def]

theorem type_replacements_impl_trait_none {bounds : List Bound} (E : List String)
    (h : match_impl_iterator bounds = Option.none) :
    type_replacements (.implTrait bounds) E = [] := by
  conv_lhs => rw [type_replacements.eq_def]
  split <;> simp_all
  split <;> simp_all

theorem type_replacements_tuple_pair (X Y : RType) (E : List String) :
    type_replacements (.tuple [X, Y]) E
      = (type_replacements X E).flatMap
          (fun a => (type_replacements Y E).map (fun b => .tuple [a, b])) := by
  conv_lhs => rw [type_replacements.eq_def]
  simp [List.attach, List.attachWith, List.pmap, multi_cartesian_product,
    List.map_flatMap, List.map_map, Function.comp]
  rfl

theorem path_replacements_signed {p : RPath} (E : List String)
    (h : path_is_signed p = true) :
    path_replacements p E = [.zero, .one, .negOne] := by
  unfold path_is_signed at h
  simp at h
  rcases h with h|h|h|h|h|h <;>
    (have hp := isIdent_true h; subst hp;
     simp [path_replacements, RPath.isIdent, RPath.getIdent, path_is_unsigned, path_is_signed,
       path_is_float, path_is_nonzero_signed, path_is_nonzero_unsigned, path_ends_with,
       RPath.segments, PathSeg.ident])

/-! Embedding of `shard.rs`. -/

/-- Embedding of `struct Shard`: the index `k` and the modulus `n`. -/
structure Shard where
  k : Nat
  n : Nat
deriving DecidableEq

/-- Embedding of `Shard::select`: enumerate the mutants and keep those whose
zero-based position `i` satisfies `i % n == k`. -/
def Shard.select (shard : Shard) (mutants : List α) : List α :=
  mutants.enum.filterMap
    (fun im => if im.1 % shard.n == shard.k then some im.2 else Option.none)

/-- Embedding of `str::split_once`: split at the first occurrence of `sep`;
`none` when `sep` does not occur. -/
def split_once (sep : Char) : List Char → Option (List Char × List Char)
  | [] => Option.none
  | c :: rest =>
    if c = sep then some ([], rest)
    else (split_once sep rest).map (fun pr => (c :: pr.1, pr.2))

/-- Decimal digit value of a character, `none` for a non-digit. -/
def digit_val (c : Char) : Option Nat :=
  if '0' ≤ c ∧ c ≤ '9' then some (c.toNat - Char.toNat '0') else Option.none

/-- Accumulate decimal digits left to right; any non-digit character fails the
whole parse. -/
def parse_digits : List Char → Nat → Option Nat
  | [], acc => some acc
  | c :: rest, acc => (digit_val c).bind (fun d => parse_digits rest (acc * 10 + d))

/-- Embedding of `usize::from_str` as invoked through `str::parse`: an
optional leading `+`, then one or more decimal digits; the empty string and
any non-digit fail.  `usize` is embedded as `Nat`, so overflow is not
modelled. -/
def parse_usize : List Char → Option Nat
  | [] => Option.none
  | '+' :: rest => if rest.isEmpty then Option.none else parse_digits rest 0
  | s => parse_digits s 0

/-- Embedding of `impl FromStr for Shard`: split on `/`, parse both sides as
`usize`, and require `k < n`; each failure produces its own descriptive
error message (the `context` strings of the source). -/
def Shard.from_str (s : List Char) : Except String Shard :=
  match split_once '/' s with
  | Option.none => .error "shard must be k/n"
  | some (a, b) =>
    match parse_usize a with
    | Option.none => .error "shard k"
    | some k =>
      match parse_usize b with
      | Option.none => .error "shard n"
      | some n =>
        if k < n then .ok ⟨k, n⟩ else .error "shard k must be less than n"


/-! Supporting lemma for shard selection: selecting from an enumeration
starting at `off` keeps exactly the elements whose shifted index satisfies
the predicate, in index order. -/

theorem select_enumFrom {α : Type} (P : Nat → Bool) (off : Nat) (l : List α) :
    (List.enumFrom off l).filterMap
        (fun im => if P im.1 then some im.2 else Option.none)
      = ((List.range l.length).filter (fun i => P (off + i))).filterMap l.get? := by
  induction l generalizing off with
  | nil => simp
  | cons a t ih =>
    show ((off, a) :: List.enumFrom (off + 1) t).filterMap
        (fun im => if P im.1 then some im.2 else Option.none) = _
    rw [List.filterMap_cons, List.length_cons, List.range_succ_eq_map, List.filter_cons]
    simp only [Nat.add_zero]
    have hmapfilter : ((List.range t.length).map Nat.succ).filter (fun i => P (off + i))
        = ((List.range t.length).filter (fun i => P (off + 1 + i))).map Nat.succ := by
      rw [List.filter_map]
      congr 1
      apply List.filter_congr
      intro i _
      have hoff : off + Nat.succ i = off + 1 + i := by omega
      simp [Function.comp, hoff]
    rw [hmapfilter]
    have htail : (((List.range t.length).filter (fun i => P (off + 1 + i))).map
          Nat.succ).filterMap (a :: t).get?
        = ((List.range t.length).filter (fun i => P (off + 1 + i))).filterMap t.get? := by
      rw [List.filterMap_map]
      apply List.filterMap_congr
      intro i _
      rfl
    by_cases hP : P off
    · simp only [hP, if_true, List.filterMap_cons]
      rw [htail, ih]
      rfl
    · simp only [hP, if_false, Bool.false_eq_true]
      rw [htail, ih]


/-! The claims. -/

/-- C1: For every type node that is a path ending in `Result` with ok-type
argument `X` and every error-expression list `E`, the synthesized candidate
sequence is exactly `[Ok(c) for c in synth(X)]` followed by
`[Err(e) for e in E]`, in order; when the `Result` path has no type argument
the Ok part is the single candidate `Ok(Default::default())`; when `E` is
empty no `Err` candidate appears. -/
theorem claim_C1 :
    (∀ (p : RPath) (X : RType) (E : List String),
        match_first_type_arg p "Result" = some X →
        type_replacements (.path p) E
          = (type_replacements X E).map (fun c => .ok c)
              ++ E.map (fun e => .err e))
    ∧ (∀ (p : RPath) (a : PathArgs) (E : List String),
        p.segments.getLast? = some (.mk "Result" a) →
        match_first_type_arg p "Result" = Option.none →
        type_replacements (.path p) E
          = Tok.ok .defaultDefault :: E.map (fun e => .err e))
    ∧ (∀ (p : RPath) (X : RType),
        match_first_type_arg p "Result" = some X →
        type_replacements (.path p) []
          = (type_replacements X []).map (fun c => .ok c)) := by
  refine ⟨?_, ?_, ?_⟩
  · intro p X E h
    rw [type_replacements_path, path_replacements_result_some E h]
  · intro p a E hl h
    rw [type_replacements_path, path_replacements_result_none E hl h]
  · intro p X h
    rw [type_replacements_path, path_replacements_result_some [] h]
    simp

/-- Witness for C1: `Result<bool>` with error list `["my_error()"]`, and
`Result` with no type argument (like `fmt::Result`) with the same list. -/
theorem claim_C1_witness :
    (match_first_type_arg
        (.mk false [.mk "Result"
          (.angleBracketed [.type (.path (.mk false [.mk "bool" .none]))])]) "Result"
      = some (.path (.mk false [.mk "bool" .none])))
    ∧ type_replacements
        (.path (.mk false [.mk "Result"
          (.angleBracketed [.type (.path (.mk false [.mk "bool" .none]))])]))
        ["my_error()"]
      = (type_replacements (.path (.mk false [.mk "bool" .none]))
            ["my_error()"]).map (fun c => .ok c)
          ++ (["my_error()"].map (fun e => .err e))
    ∧ type_replacements (.path (.mk false [.mk "fmt" .none, .mk "Result" .none]))
        ["my_error()"]
      = Tok.ok .defaultDefault :: (["my_error()"].map (fun e => .err e)) :=
  ⟨rfl, claim_C1.1 _ _ _ rfl, claim_C1.2.1 _ PathArgs.none _ rfl rfl⟩

/-- C2: For every type node that is an `Option` wrapper over `X`, the
synthesized sequence is exactly `[None] ++ [Some(c) for c in synth(X)]`,
preserving order; in particular `Option<u8>` yields
`[None, Some(0), Some(1)]`. -/
theorem claim_C2 :
    (∀ (p : RPath) (X : RType) (E : List String),
        match_first_type_arg p "Option" = some X →
        type_replacements (.path p) E
          = Tok.none :: (type_replacements X E).map (fun c => .some c))
    ∧ (∀ E : List String,
        type_replacements
          (.path (.mk false [.mk "Option"
            (.angleBracketed [.type (.path (.mk false [.mk "u8" .none]))])])) E
          = [Tok.none, .some .zero, .some .one]) := by
  constructor
  · intro p X E h
    rw [type_replacements_path, path_replacements_option_some E h]
  · intro E
    have h : match_first_type_arg
        (.mk false [.mk "Option"
          (.angleBracketed [.type (.path (.mk false [.mk "u8" .none]))])]) "Option"
        = some (.path (.mk false [.mk "u8" .none])) := rfl
    rw [type_replacements_path, path_replacements_option_some E h,
      type_replacements_path, path_replacements_unsigned E (by decide)]
    rfl

/-- Witness for C2: `Option<bool>` with the empty error list. -/
theorem claim_C2_witness :
    (match_first_type_arg
        (.mk false [.mk "Option"
          (.angleBracketed [.type (.path (.mk false [.mk "bool" .none]))])]) "Option"
      = some (.path (.mk false [.mk "bool" .none])))
    ∧ type_replacements
        (.path (.mk false [.mk "Option"
          (.angleBracketed [.type (.path (.mk false [.mk "bool" .none]))])])) []
      = Tok.none :: (type_replacements (.path (.mk false [.mk "bool" .none])) []).map
          (fun c => .some c) :=
  ⟨rfl, claim_C2.1 _ _ [] rfl⟩

/-- C3: For every fixed-array type `[X; N]`, the synthesized sequence is the
per-candidate repetition literal `[c; N]` for each `c` in `synth(X)`, in
order — exactly `|synth(X)|` entries and no cross product. -/
theorem claim_C3 (elem : RType) (len : Nat) (E : List String) :
    type_replacements (.array elem len) E
      = (type_replacements elem E).map (fun c => .arrayRepeat c len)
    ∧ (type_replacements (.array elem len) E).length
      = (type_replacements elem E).length := by
  refine ⟨type_replacements_array elem len E, ?_⟩
  rw [type_replacements_array]
  simp

/-- C4: For every tuple type `(X, Y)`, the synthesized sequence is the full
cartesian product of `synth(X)` and `synth(Y)` with `X` varying slower
(outer loop), and its length is `|synth(X)| * |synth(Y)|`. -/
theorem claim_C4 (X Y : RType) (E : List String) :
    type_replacements (.tuple [X, Y]) E
      = (type_replacements X E).flatMap
          (fun a => (type_replacements Y E).map (fun b => .tuple [a, b]))
    ∧ (type_replacements (.tuple [X, Y]) E).length
      = (type_replacements X E).length * (type_replacements Y E).length := by
  refine ⟨type_replacements_tuple_pair X Y E, ?_⟩
  rw [type_replacements_tuple_pair]
  induction type_replacements X E with
  | nil => simp
  | cons a t ih => simp [ih, Nat.succ_mul, Nat.add_comm]

/-- C5: The never type yields the empty sequence, and so does every opaque
impl-trait type none of whose bounds is an `Iterator` bound carrying an
`Item` associated type; the empty sequence is an ordinary return value, not
an error (the function's type has no error channel). -/
theorem claim_C5 :
    (∀ E : List String, type_replacements .never E = [])
    ∧ (∀ (bounds : List Bound) (E : List String),
        match_impl_iterator bounds = Option.none →
        type_replacements (.implTrait bounds) E = []) :=
  ⟨type_replacements_never, fun _ E h => type_replacements_impl_trait_none E h⟩

/-- Witness for C5: `impl Clone` (a single non-Iterator trait bound). -/
theorem claim_C5_witness :
    match_impl_iterator [.trait (.mk false [.mk "Clone" .none])] = Option.none
    ∧ type_replacements (.implTrait [.trait (.mk false [.mk "Clone" .none])]) [] = [] :=
  ⟨rfl, claim_C5.2 _ [] rfl⟩

/-- C6: Parsing a shard descriptor succeeds with `(k, n)` exactly when the
string splits at a `/` into two parseable unsigned integers with `k < n`;
otherwise it fails with the corresponding descriptive error (missing `/`,
unparseable `k`, unparseable `n`, or `k ≥ n`), and no shard is produced. -/
theorem claim_C6 (s : List Char) :
    (∀ sh : Shard, Shard.from_str s = .ok sh ↔
        ∃ a b, split_once '/' s = some (a, b) ∧ parse_usize a = some sh.k ∧
          parse_usize b = some sh.n ∧ sh.k < sh.n)
    ∧ (split_once '/' s = Option.none → Shard.from_str s = .error "shard must be k/n")
    ∧ (∀ a b, split_once '/' s = some (a, b) → parse_usize a = Option.none →
        Shard.from_str s = .error "shard k")
    ∧ (∀ a b k, split_once '/' s = some (a, b) → parse_usize a = some k →
        parse_usize b = Option.none → Shard.from_str s = .error "shard n")
    ∧ (∀ a b k n, split_once '/' s = some (a, b) → parse_usize a = some k →
        parse_usize b = some n → n ≤ k →
        Shard.from_str s = .error "shard k must be less than n") := by
  refine ⟨?_, ?_, ?_, ?_, ?_⟩
  · intro sh
    constructor
    · intro h
      unfold Shard.from_str at h
      split at h
      · simp at h
      case _ a b heq =>
        split at h
        · simp at h
        case _ k hk =>
          split at h
          · simp at h
          case _ n hn =>
            split at h
            case _ hlt =>
              have hsh : (⟨k, n⟩ : Shard) = sh := by
                injection h with h2
              subst hsh
              exact ⟨a, b, heq, hk, hn, hlt⟩
            · simp at h
    · rintro ⟨a, b, h1, h2, h3, h4⟩
      simp [Shard.from_str, h1, h2, h3, h4]
  · intro h
    simp [Shard.from_str, h]
  · intro a b h1 h2
    simp [Shard.from_str, h1, h2]
  · intro a b k h1 h2 h3
    simp [Shard.from_str, h1, h2, h3]
  · intro a b k n h1 h2 h3 h4
    have hnot : ¬ (k < n) := by omega
    simp [Shard.from_str, h1, h2, h3, hnot]

/-- Witness for C6: `"2/5"` parses to the shard `(2, 5)`. -/
theorem claim_C6_witness :
    Shard.from_str ['2', '/', '5'] = .ok ⟨2, 5⟩ :=
  ((claim_C6 ['2', '/', '5']).1 ⟨2, 5⟩).mpr ⟨['2'], ['5'], rfl, rfl, rfl, by decide⟩

/-- C7: For every shard `(k, n)` with `k < n` and every mutant list, shard
selection returns exactly the elements whose zero-based position `i`
satisfies `i % n = k`, in input order (the qualifying positions are taken
from `range` in increasing order and looked up). -/
theorem claim_C7 {α : Type} {k n : Nat} (h : k < n) (l : List α) :
    Shard.select ⟨k, n⟩ l
      = ((List.range l.length).filter (fun i => i % n == k)).filterMap l.get? := by
  have h0 := select_enumFrom (fun i => i % n == k) 0 l
  simpa [Shard.select, List.enum] using h0

/-- Witness for C7: shard `1/4` over ten mutants picks positions 1, 5, 9
(the source's own test case). -/
theorem claim_C7_witness :
    1 < 4
    ∧ Shard.select ⟨1, 4⟩ [0, 1, 2, 3, 4, 5, 6, 7, 8, 9]
      = ((List.range ([0, 1, 2, 3, 4, 5, 6, 7, 8, 9] : List Nat).length).filter
          (fun i => i % 4 == 1)).filterMap [0, 1, 2, 3, 4, 5, 6, 7, 8, 9].get?
    ∧ Shard.select ⟨1, 4⟩ [0, 1, 2, 3, 4, 5, 6, 7, 8, 9] = [1, 5, 9] :=
  ⟨by decide, claim_C7 (by decide) _, by decide⟩

/-- C8: Every path whose terminal segment is a non-zero unsigned wrapper
name yields exactly `[1]`; a non-zero signed wrapper name yields exactly
`[1, -1]`; so `0` never appears for non-zero wrappers, unlike the plain
unsigned (`[0, 1]`) and signed (`[0, 1, -1]`) leaves. -/
theorem claim_C8 :
    (∀ (p : RPath) (E : List String), path_is_nonzero_unsigned p = true →
        type_replacements (.path p) E = [Tok.one])
    ∧ (∀ (p : RPath) (E : List String), path_is_nonzero_signed p = true →
        type_replacements (.path p) E = [Tok.one, Tok.negOne])
    ∧ (∀ (p : RPath) (E : List String), path_is_unsigned p = true →
        type_replacements (.path p) E = [Tok.zero, Tok.one])
    ∧ (∀ (p : RPath) (E : List String), path_is_signed p = true →
        type_replacements (.path p) E = [Tok.zero, Tok.one, Tok.negOne]) := by
  refine ⟨?_, ?_, ?_, ?_⟩
  · intro p E h
    rw [type_replacements_path, path_replacements_nonzero_unsigned E h]
  · intro p E h
    rw [type_replacements_path, path_replacements_nonzero_signed E h]
  · intro p E h
    rw [type_replacements_path, path_replacements_unsigned E h]
  · intro p E h
    rw [type_replacements_path, path_replacements_signed E h]

/-- Witness for C8: the two-segment path `num::NonZeroU8` (terminal-segment
match) yields `[1]`. -/
theorem claim_C8_witness :
    path_is_nonzero_unsigned (.mk false [.mk "num" .none, .mk "NonZeroU8" .none]) = true
    ∧ type_replacements
        (.path (.mk false [.mk "num" .none, .mk "NonZeroU8" .none])) [] = [Tok.one] :=
  ⟨by decide, claim_C8.1 _ [] (by decide)⟩

/-- C9: The owned-string leaf (path exactly `String`) yields exactly
`[String::new(), "xyzzy".into()]`; the borrowed-string leaf (path exactly
`str`, bare or behind `&`) yields exactly `["", "xyzzy"]` with no reference
wrapper added. -/
theorem claim_C9 :
    (∀ (p : RPath) (E : List String), p.isIdent "String" = true →
        type_replacements (.path p) E = [.stringNew, .xyzzyInto])
    ∧ (∀ (p : RPath) (E : List String), p.isIdent "str" = true →
        type_replacements (.path p) E = [.strEmpty, .strXyzzy])
    ∧ (∀ (p : RPath) (E : List String), p.isIdent "str" = true →
        type_replacements (.ref false (.path p)) E = [.strEmpty, .strXyzzy]) := by
  refine ⟨?_, ?_, ?_⟩
  · intro p E h
    rw [type_replacements_path, path_replacements_String E h]
  · intro p E h
    rw [type_replacements_path, path_replacements_str E h]
  · intro p E h
    exact type_replacements_ref_str E h

/-- Witness for C9: the literal `String`, `str` and `&str` paths. -/
theorem claim_C9_witness :
    (RPath.mk false [.mk "String" .none]).isIdent "String" = true
    ∧ type_replacements (.path (.mk false [.mk "String" .none])) []
        = [.stringNew, .xyzzyInto]
    ∧ type_replacements (.ref false (.path (.mk false [.mk "str" .none]))) []
        = [.strEmpty, .strXyzzy] :=
  ⟨by decide, claim_C9.1 _ [] (by decide), claim_C9.2.2 _ [] (by decide)⟩

/-- C10: A primitive-leaf name matches only as an exact single-identifier
path: a path with a primitive terminal segment but more than one segment (or
a leading colon), having no type arguments, falls through every case to the
single candidate `Default::default()`.  By contrast, non-zero wrappers and
registry names match by terminal segment alone: `core::primitive::bool`
gives `[Default::default()]` while `num::NonZeroU8` gives `[1]`. -/
theorem claim_C10 :
    (∀ (p : RPath) (ident : String) (E : List String),
        p.segments.getLast? = some (.mk ident .none) →
        ident ∈ ["bool", "String", "str", "u8", "u16", "u32", "u64", "u128", "usize",
          "i8", "i16", "i32", "i64", "i128", "isize", "f32", "f64"] →
        2 ≤ p.segments.length ∨ p.leadingColon = true →
        type_replacements (.path p) E = [.defaultDefault])
    ∧ type_replacements
        (.path (.mk false [.mk "core" .none, .mk "primitive" .none, .mk "bool" .none])) []
        = [.defaultDefault]
    ∧ type_replacements (.path (.mk false [.mk "num" .none, .mk "NonZeroU8" .none])) []
        = [Tok.one] := by
  have main : ∀ (p : RPath) (ident : String) (E : List String),
      p.segments.getLast? = some (.mk ident .none) →
      ident ∈ ["bool", "String", "str", "u8", "u16", "u32", "u64", "u128", "usize",
        "i8", "i16", "i32", "i64", "i128", "isize", "f32", "f64"] →
      2 ≤ p.segments.length ∨ p.leadingColon = true →
      type_replacements (.path p) E = [.defaultDefault] := by
    intro p ident E hl hmem hlong
    have hreg := registry_replacements_default E
      (match_first_type_arg_none_of_args_none hl "Option")
      (match_first_type_arg_none_of_args_none hl "Vec")
      (match_first_type_arg_none_of_args_none hl "Cow")
      (known_container_none_of_args_none hl)
      (known_collection_none_of_args_none hl)
      (known_map_none_of_args_none hl)
      (maybe_none_of_args_none hl)
    rw [type_replacements_path, path_replacements.eq_def]
    fin_cases hmem <;>
      simp [isIdent_false_of_long hlong, path_is_unsigned, path_is_signed, path_is_float,
        path_is_nonzero_signed_eq_of_getLast hl, path_is_nonzero_unsigned_eq_of_getLast hl,
        path_ends_with_eq_of_getLast hl, hreg]
  refine ⟨main, ?_, ?_⟩
  · exact main _ "bool" [] rfl (by simp) (Or.inl (by decide))
  · rw [type_replacements_path, path_replacements_nonzero_unsigned [] (by decide)]

/-- Witness for C10: the two-segment path `string::String` with no type
arguments synthesizes only `Default::default()`. -/
theorem claim_C10_witness :
    (RPath.mk false [.mk "string" .none, .mk "String" .none]).segments.getLast?
        = some (.mk "String" .none)
    ∧ type_replacements
        (.path (.mk false [.mk "string" .none, .mk "String" .none])) []
        = [.defaultDefault] :=
  ⟨rfl, claim_C10.1 _ "String" [] rfl (by simp) (Or.inl (by decide))⟩

end Mutants
